import Mathlib

/-!
Verification of the Claude Code Token Dashboard server (`server.js`).

This file shallowly embeds the computational core of the server: the
JSONL session parser `parseJSONL` with its helper `extractTextContent`,
the presentation-time turn grouper `groupTurns`, the SSE broadcast
fan-out `broadcast`, and the debounced file-watcher logic of
`ensureWatcher`.  JSON decoding of a single log line is abstracted: a
line is either blank (removed by `filter(Boolean)` before parsing),
malformed (`JSON.parse` throws and the loop `continue`s), or a decoded
record carrying exactly the fields the server reads.  JavaScript
truthiness of the string fields is modelled explicitly (`strTruthy`),
and `x || 0` on optional token counts is `Option.getD 0`.
-/

namespace Dashboard

/-- Truthiness of an optional JS string field: `undefined`/`null` and
the empty string are falsy, every other string is truthy. -/
def strTruthy : Option String → Bool
  | some s => s ≠ ""
  | none => false

/-- Does the pattern occur at the head of the list? -/
def leadMatch : List Char → List Char → Bool
  | [], _ => true
  | _ :: _, [] => false
  | p :: ps, c :: cs => p == c && leadMatch ps cs

/-- Does the pattern occur anywhere in the list? -/
def hasSub (pat : List Char) : List Char → Bool
  | [] => leadMatch pat []
  | c :: cs => leadMatch pat (c :: cs) || hasSub pat cs

/-- Model of JS `String.prototype.includes`. -/
def strIncludes (s pat : String) : Bool := hasSub pat.data s.data

/-- One item of a structured `message.content` array: its `type` tag
and, when present, its `text` field. -/
structure CItem where
  ctype : String
  text : Option String
  deriving DecidableEq, Repr

/-- The JS `message.content` value: absent/null, a plain string, or an
array of content items.  Every other JS shape extracts to `""` exactly
like the absent case, so it is folded into `nullc`. -/
inductive Content where
  | nullc
  | str (s : String)
  | arr (items : List CItem)
  deriving DecidableEq, Repr

/-- The `usage` object of an assistant message (fields the server
reads; each may be absent). -/
structure Usage where
  input_tokens : Option Nat
  cache_read_input_tokens : Option Nat
  cache_creation_input_tokens : Option Nat
  output_tokens : Option Nat
  service_tier : Option String
  deriving DecidableEq, Repr

/-- The `message` object of a record (fields the server reads). -/
structure Message where
  role : Option String
  content : Content
  usage : Option Usage
  model : Option String
  deriving DecidableEq, Repr

/-- The `compactMetadata` object of a compact-boundary record. -/
structure CompactMeta where
  preTokens : Option Nat
  deriving DecidableEq, Repr

/-- One decoded JSONL record, restricted to the fields `parseJSONL`
reads. -/
structure Rec where
  type : Option String
  subtype : Option String
  isMeta : Bool
  isCompactSummary : Bool
  compactMetadata : Option CompactMeta
  message : Option Message
  uuid : Option String
  requestId : Option String
  timestamp : Option String
  sessionId : Option String
  slug : Option String
  version : Option String
  deriving DecidableEq, Repr

/-- `extractTextContent` (server.js 191–201): `""` for null/absent
content, the string itself for string content, and for an array the
concatenation, in order, of the `text` of all `"text"`-typed items
(missing `text` contributing `""`). -/
def extractTextContent : Content → String
  | .nullc => ""
  | .str s => s
  | .arr items =>
    String.join ((items.filter (fun c => c.ctype == "text")).map (fun c => c.text.getD ""))

/-- A user record whose content is a nonempty array consisting solely
of `tool_result` items (server.js 121–122). -/
def toolResultOnly (r : Rec) : Bool :=
  match r.message with
  | some m =>
    match m.content with
    | .arr items => !items.isEmpty && items.all (fun c => c.ctype == "tool_result")
    | _ => false
  | none => false

/-- Guard of the compact-boundary branch (server.js 102). -/
def isCompactBoundary (r : Rec) : Bool :=
  r.type == some "system" && r.subtype == some "compact_boundary"

/-- Guard of the user-message branch (server.js 111). -/
def isUserMsg (r : Rec) : Bool :=
  r.type == some "user" &&
    (match r.message with | some m => m.role == some "user" | none => false)

/-- Guard of the assistant-message branch (server.js 147). -/
def isAsstUsage (r : Rec) : Bool :=
  r.type == some "assistant" &&
    (match r.message with | some m => m.usage.isSome | none => false)

/-- The pending-user slot value (`pendingUser`, server.js 137–142). -/
structure Pending where
  uuid : Option String
  timestamp : Option String
  content : String
  isCompactSummary : Bool
  deriving DecidableEq, Repr

/-- One entry of `data.exchanges` (server.js 163–176). -/
structure Exchange where
  uuid : Option String
  requestId : Option String
  timestamp : Option String
  model : Option String
  input : Nat
  cacheRead : Nat
  cacheCreated : Nat
  output : Nat
  totalContext : Nat
  userMessage : Option Pending
  response : String
  serviceTier : Option String
  deriving DecidableEq, Repr

/-- The `data.totals` object (server.js 91). -/
structure Totals where
  input : Nat
  cacheRead : Nat
  cacheCreated : Nat
  output : Nat
  deriving DecidableEq, Repr

/-- The `data` object returned by `parseJSONL` (server.js 85–93); the
dynamically added `compactPreTokens` and the `readError` flag of the
fallback object are modelled as an `Option` and a `Bool`. -/
structure Data where
  sessionId : Option String
  slug : Option String
  model : Option String
  version : Option String
  exchanges : List Exchange
  totals : Totals
  compactCount : Nat
  compactPreTokens : Option Nat
  readError : Bool
  deriving DecidableEq, Repr

/-- The full loop state of `parseJSONL`: the `data` object under
construction plus the `pendingUser` slot. -/
structure PState where
  data : Data
  pendingUser : Option Pending
  deriving DecidableEq, Repr

/-- The user-message branch (server.js 111–143) as a function from the
record to the new pending prompt: `none` when the record is skipped
(meta wrapper, all-`tool_result` content, blank extracted text, or
internal command-wrapper markup), otherwise the `Pending` value that
overwrites `pendingUser`. -/
def userPromptOf (r : Rec) : Option Pending :=
  match r.message with
  | none => none
  | some m =>
    if r.isMeta then none
    else if (match m.content with
             | .arr items => !items.isEmpty && items.all (fun c => c.ctype == "tool_result")
             | _ => false) then none
    else
      let content := extractTextContent m.content
      if content.data.all (fun c => c.isWhitespace) then none -- JS !content.trim(): blank iff every char is whitespace
      else if strIncludes content "<local-command" ||
              strIncludes content "<command-name>" ||
              strIncludes content "<local-command-stdout>" ||
              strIncludes content "<local-command-caveat>" then none
      else some ⟨r.uuid, r.timestamp, content, r.isCompactSummary⟩

/-- The assistant-with-usage branch (server.js 147–184): first-write
capture of the session fields, construction of the Exchange, appending
it, adding its counts to the running totals, and clearing the pending
prompt. -/
def assistantStep (s : PState) (r : Rec) (m : Message) (usage : Usage) : PState :=
  let d := s.data
  let sessionId := if !strTruthy d.sessionId && strTruthy r.sessionId then r.sessionId else d.sessionId
  let model := if !strTruthy d.model && strTruthy m.model then m.model else d.model
  let slug := if !strTruthy d.slug && strTruthy r.slug then r.slug else d.slug
  let version := if !strTruthy d.version && strTruthy r.version then r.version else d.version
  let input := usage.input_tokens.getD 0
  let cacheRead := usage.cache_read_input_tokens.getD 0
  let cacheCreated := usage.cache_creation_input_tokens.getD 0
  let output := usage.output_tokens.getD 0
  let ex : Exchange :=
    { uuid := r.uuid, requestId := r.requestId, timestamp := r.timestamp, model := m.model,
      input := input, cacheRead := cacheRead, cacheCreated := cacheCreated, output := output,
      totalContext := input + cacheRead + cacheCreated,
      userMessage := s.pendingUser, response := extractTextContent m.content,
      serviceTier := usage.service_tier }
  { data :=
      { sessionId := sessionId, slug := slug, model := model, version := version,
        exchanges := d.exchanges ++ [ex],
        totals :=
          { input := d.totals.input + input, cacheRead := d.totals.cacheRead + cacheRead,
            cacheCreated := d.totals.cacheCreated + cacheCreated,
            output := d.totals.output + output },
        compactCount := d.compactCount, compactPreTokens := d.compactPreTokens,
        readError := d.readError },
    pendingUser := none }

/-- The compact-boundary branch (server.js 102–108): bump the
compaction counter and, when `compactMetadata?.preTokens` is truthy,
record it on the summary. -/
def compactData (d : Data) (r : Rec) : Data :=
  { d with
    compactCount := d.compactCount + 1,
    compactPreTokens :=
      match r.compactMetadata with
      | some cm =>
        match cm.preTokens with
        | some n => if n = 0 then d.compactPreTokens else some n
        | none => d.compactPreTokens
      | none => d.compactPreTokens }

/-- One iteration of the record loop of `parseJSONL`
(server.js 97–186). -/
def stepRec (s : PState) (r : Rec) : PState :=
  if isCompactBoundary r then
    { s with data := compactData s.data r }
  else if isUserMsg r then
    match userPromptOf r with
    | some pu => { s with pendingUser := some pu }
    | none => s
  else if isAsstUsage r then
    match r.message with
    | some m =>
      match m.usage with
      | some usage => assistantStep s r m usage
      | none => s
    | none => s
  else s

/-- One line of the file after splitting on newlines: `blank` lines
are removed by `filter(Boolean)`, `malformed` lines make `JSON.parse`
throw and are skipped, `record` lines decode to a record. -/
inductive Line where
  | blank
  | malformed
  | record (r : Rec)
  deriving DecidableEq, Repr

def stepLine (s : PState) : Line → PState
  | .blank => s
  | .malformed => s
  | .record r => stepRec s r

/-- The initial `data` object (server.js 85–93). -/
def initData : Data :=
  { sessionId := none, slug := none, model := none, version := none, exchanges := [],
    totals := { input := 0, cacheRead := 0, cacheCreated := 0, output := 0 },
    compactCount := 0, compactPreTokens := none, readError := false }

def initState : PState := { data := initData, pendingUser := none }

def runLines (s : PState) (ls : List Line) : PState := ls.foldl stepLine s

/-- The main loop of `parseJSONL` (server.js 83–188) on the
already-split line list: blank lines are filtered out, the remaining
lines are folded in document order. -/
def parseLines (content : List Line) : Data :=
  (runLines initState (content.filter (fun l => l != Line.blank))).data

/-- The outcome of `fs.readFileSync` at derivation time. -/
inductive FileRead where
  | err
  | ok (content : List Line)
  deriving DecidableEq, Repr

/-- `parseJSONL` (server.js 78–189): `null` (here `none`) when the
file cannot be read, otherwise the parsed summary. -/
def parseJSONL : FileRead → Option Data
  | .err => none
  | .ok content => some (parseLines content)

/-- The summary-shaped fallback object built at the `/events` boundary
(server.js 921–925) when `parseJSONL` returns `null`. -/
def errorData : Data := { initData with readError := true }

/-- The `init` payload of the `/events` handler (server.js 920–926):
`parseJSONL(sessionPath) || { ...empty summary..., readError: true }`. -/
def eventsInitData (f : FileRead) : Data := (parseJSONL f).getD errorData

/-- One turn of the presentation grouping (`groupTurns`,
server.js 754–769): its anchoring user prompt (or none) and its member
exchanges. -/
structure Turn where
  user : Option Pending
  exs : List Exchange
  deriving DecidableEq, Repr

/-- Worker for `groupTurns`: `cur` is the currently open turn; it is
emitted when a prompted exchange starts a fresh turn and at the end of
the list.  A promptless exchange joins `cur` when one is open,
otherwise opens a promptless turn. -/
def groupTurnsGo (cur : Option Turn) : List Exchange → List Turn
  | [] =>
    match cur with
    | none => []
    | some t => [t]
  | ex :: rest =>
    match ex.userMessage with
    | some _ =>
      (match cur with | none => [] | some t => [t]) ++
        groupTurnsGo (some ⟨ex.userMessage, [ex]⟩) rest
    | none =>
      match cur with
      | some t => groupTurnsGo (some ⟨t.user, t.exs ++ [ex]⟩) rest
      | none => groupTurnsGo (some ⟨none, [ex]⟩) rest

/-- `groupTurns` (server.js 754–769). -/
def groupTurns (exchanges : List Exchange) : List Turn :=
  groupTurnsGo none exchanges

/-- One SSE client attached to a path: its identifier and whether
`res.write` currently succeeds (false models a write that throws). -/
structure Observer where
  oid : Nat
  writeOk : Bool
  deriving DecidableEq, Repr

/-- The fan-out loop of `broadcast` (server.js 246–248):
`try { res.write(msg) } catch (_) {}` for each client in order; the
result lists the clients that received the message. -/
def broadcastLoop : List Observer → List Nat
  | [] => []
  | o :: rest => if o.writeOk then o.oid :: broadcastLoop rest else broadcastLoop rest

/-- `broadcast` (server.js 242–249) for one path: returns the
identifiers that received the message and the registry entry for the
path as it stands after the call (the function never touches
`clientsByPath`, so the set is returned unchanged). -/
def broadcast (set : List Observer) : List Nat × List Observer :=
  if set.isEmpty then ([], set) else (broadcastLoop set, set)

/-- One event seen by the watcher callback of `ensureWatcher`
(server.js 208–215): `notify` is an `fs.watch` callback invocation
(`clearTimeout` + `setTimeout`, re-arming the 150 ms debounce timer);
`elapse` is the armed timer firing (one `parseJSONL` + `broadcast`
re-derivation). -/
inductive WEvent where
  | notify
  | elapse
  deriving DecidableEq, Repr

/-- Watcher state: whether a debounce timer is armed, and how many
re-derivations have run. -/
structure WatchState where
  pending : Bool
  derivations : Nat
  deriving DecidableEq, Repr

/-- One step of the debounce state machine. -/
def debounceStep (s : WatchState) : WEvent → WatchState
  | .notify => { s with pending := true }
  | .elapse =>
    if s.pending then { pending := false, derivations := s.derivations + 1 } else s

def debounceRun (s : WatchState) (evts : List WEvent) : WatchState :=
  evts.foldl debounceStep s

/-- Componentwise sum of the four usage counts over a list of
exchanges. -/
def listTotals (exs : List Exchange) : Totals :=
  { input := (exs.map (fun e => e.input)).sum,
    cacheRead := (exs.map (fun e => e.cacheRead)).sum,
    cacheCreated := (exs.map (fun e => e.cacheCreated)).sum,
    output := (exs.map (fun e => e.output)).sum }

lemma listTotals_append (l : List Exchange) (ex : Exchange) :
    listTotals (l ++ [ex]) =
      { input := (listTotals l).input + ex.input,
        cacheRead := (listTotals l).cacheRead + ex.cacheRead,
        cacheCreated := (listTotals l).cacheCreated + ex.cacheCreated,
        output := (listTotals l).output + ex.output } := by
  simp [listTotals]

lemma stepRec_totalsInv (s : PState) (r : Rec)
    (h : s.data.totals = listTotals s.data.exchanges) :
    (stepRec s r).data.totals = listTotals (stepRec s r).data.exchanges := by
  unfold stepRec
  repeat' split
  all_goals try exact h
  all_goals simp only [assistantStep, listTotals_append, h]

lemma runLines_totalsInv (ls : List Line) : ∀ s : PState,
    s.data.totals = listTotals s.data.exchanges →
    (runLines s ls).data.totals = listTotals (runLines s ls).data.exchanges := by
  induction ls with
  | nil => intro s h; exact h
  | cons l rest ih =>
    intro s h
    show (runLines (stepLine s l) rest).data.totals = _
    apply ih
    cases l with
    | blank => exact h
    | malformed => exact h
    | record r => exact stepRec_totalsInv s r h

/-- C1: for every well-formed record sequence, the cumulative Usage
Counts of the summary equal the componentwise sums of the counts over
all Exchanges — and since the statement is universally quantified over
the line list, it holds after processing any prefix of the log.  The
second conjunct is the step property: each time an Exchange is appended
by the assistant branch, the four cumulative counts grow by exactly
that Exchange's own counts. -/
theorem claim1_totals_are_sum_of_exchanges :
    (∀ content : List Line,
      (parseLines content).totals = listTotals (parseLines content).exchanges) ∧
    (∀ (s : PState) (r : Rec) (m : Message) (usage : Usage), ∃ ex : Exchange,
      (assistantStep s r m usage).data.exchanges = s.data.exchanges ++ [ex] ∧
      (assistantStep s r m usage).data.totals =
        { input := s.data.totals.input + ex.input,
          cacheRead := s.data.totals.cacheRead + ex.cacheRead,
          cacheCreated := s.data.totals.cacheCreated + ex.cacheCreated,
          output := s.data.totals.output + ex.output } ∧
      (assistantStep s r m usage).pendingUser = none) := by
  constructor
  · intro content
    exact runLines_totalsInv _ initState rfl
  · intro s r m usage
    exact ⟨_, rfl, rfl, rfl⟩

/-- C9: a malformed line (one `JSON.parse` throws on) is silently
skipped: the parse of a file with the malformed line is identical — in
every field, so in particular in Exchange count and cumulative Usage
Counts — to the parse of the same file with that line removed.  The
reducer is a total function, so no error is raised. -/
theorem claim9_malformed_line_skipped (pre post : List Line) :
    parseLines (pre ++ Line.malformed :: post) = parseLines (pre ++ post) := by
  unfold parseLines runLines
  simp [List.filter_append, List.filter_cons, List.foldl_append, stepLine]

/-- Witness for C9 at a concrete split point. -/
theorem claim9_witness :
    parseLines ([Line.blank] ++ Line.malformed :: []) = parseLines ([Line.blank] ++ []) :=
  claim9_malformed_line_skipped [Line.blank] []

/-- C10: the Session Reducer is deterministic and idempotent — it is a
pure function of the file content, so two runs on the same input text
produce structurally identical summaries. -/
theorem claim10_reducer_deterministic (f : FileRead) :
    parseJSONL f = parseJSONL f := rfl

lemma stepRec_readError (s : PState) (r : Rec) :
    (stepRec s r).data.readError = s.data.readError := by
  unfold stepRec
  repeat' split
  all_goals rfl

lemma runLines_readError (ls : List Line) : ∀ s : PState,
    (runLines s ls).data.readError = s.data.readError := by
  induction ls with
  | nil => intro _; rfl
  | cons l rest ih =>
    intro s
    show (runLines (stepLine s l) rest).data.readError = _
    rw [ih]
    cases l with
    | blank => rfl
    | malformed => rfl
    | record r => exact stepRec_readError s r

/-- C4: when the file cannot be read, `parseJSONL` returns `null` and
the derivation boundary of the `/events` handler substitutes the
summary-shaped `readError` marker (an empty summary whose `readError`
flag is set), which downstream consumers render as "temporarily
unreadable"; a successful read never carries the marker.  Both
functions are total, so the failure is never propagated as a raised
fault. -/
theorem claim4_read_error_marker :
    parseJSONL FileRead.err = none ∧
    eventsInitData FileRead.err = errorData ∧
    errorData.readError = true ∧
    errorData.exchanges = [] ∧
    errorData.totals = { input := 0, cacheRead := 0, cacheCreated := 0, output := 0 } ∧
    (∀ content : List Line, eventsInitData (FileRead.ok content) = parseLines content) ∧
    (∀ content : List Line, (parseLines content).readError = false) := by
  refine ⟨rfl, rfl, rfl, rfl, rfl, fun _ => rfl, fun content => ?_⟩
  exact runLines_readError _ initState

lemma debounceRun_replicate_notify (n : Nat) : ∀ s : WatchState,
    debounceRun s (List.replicate n WEvent.notify) =
      if n = 0 then s else { pending := true, derivations := s.derivations } := by
  induction n with
  | zero => intro s; rfl
  | succ k ih =>
    intro s
    show debounceRun { s with pending := true } (List.replicate k WEvent.notify) = _
    rw [ih]
    cases k <;> simp

/-- C7: N ≥ 1 file-change notifications all arriving before the
debounce timer elapses cause exactly one re-derivation once the timer
finally fires; a notification arriving during the window only re-arms
the timer (second conjunct: a `notify` event never changes the
re-derivation count, so no overlapping re-derivation is launched). -/
theorem claim7_debounce_coalesces (n : Nat) (h : 1 ≤ n) :
    (debounceRun { pending := false, derivations := 0 }
      (List.replicate n WEvent.notify ++ [WEvent.elapse])).derivations = 1 ∧
    (∀ s : WatchState, (debounceStep s WEvent.notify).derivations = s.derivations) := by
  constructor
  · unfold debounceRun
    rw [List.foldl_append]
    show (debounceStep (debounceRun _ _) WEvent.elapse).derivations = 1
    rw [debounceRun_replicate_notify]
    have hn : ¬ n = 0 := by omega
    simp [hn, debounceStep]
  · intro s; rfl

/-- Witness for C7 at a burst of three notifications. -/
theorem claim7_witness :
    1 ≤ 3 ∧
    ((debounceRun { pending := false, derivations := 0 }
      (List.replicate 3 WEvent.notify ++ [WEvent.elapse])).derivations = 1 ∧
    (∀ s : WatchState, (debounceStep s WEvent.notify).derivations = s.derivations)) :=
  ⟨by decide, claim7_debounce_coalesces 3 (by decide)⟩

lemma broadcastLoop_mem (set : List Observer) : ∀ o : Observer,
    o ∈ set → o.writeOk = true → o.oid ∈ broadcastLoop set := by
  induction set with
  | nil => intro o h; cases h
  | cons a rest ih =>
    intro o hmem hok
    cases hmem with
    | head => simp [broadcastLoop, hok]
    | tail _ hr =>
      unfold broadcastLoop
      split
      · exact List.mem_cons_of_mem _ (ih o hr hok)
      · exact ih o hr hok

/-- C5 (amended): a failure writing to one observer neither blocks nor
aborts delivery to any other attached observer — every observer whose
write succeeds receives the message regardless of failures elsewhere in
the set — but the failing observer is NOT dropped by the broadcast: the
registry entry is returned unchanged, and the observer is only removed
later when its connection-close event triggers `removeClient`. -/
theorem claim5_broadcast_failure_isolated (set : List Observer) :
    (∀ o : Observer, o ∈ set → o.writeOk = true → o.oid ∈ (broadcast set).1) ∧
    (broadcast set).2 = set := by
  constructor
  · intro o hmem hok
    cases set with
    | nil => cases hmem
    | cons a rest =>
      have hb : broadcast (a :: rest) = (broadcastLoop (a :: rest), a :: rest) := by
        unfold broadcast
        rw [if_neg (by simp)]
      rw [hb]
      exact broadcastLoop_mem _ o hmem hok
  · unfold broadcast
    split <;> rfl

/-- Witness for C5's amended theorem at a concrete two-observer set in
which the first observer's write fails. -/
theorem claim5_witness :
    ((1 : Nat) ∈ (broadcast [{ oid := 0, writeOk := false }, { oid := 1, writeOk := true }]).1) ∧
    (broadcast [{ oid := 0, writeOk := false }, { oid := 1, writeOk := true }]).2 =
      [{ oid := 0, writeOk := false }, { oid := 1, writeOk := true }] :=
  ⟨(claim5_broadcast_failure_isolated _).1 { oid := 1, writeOk := true } (by decide) rfl,
   (claim5_broadcast_failure_isolated _).2⟩

/-- Counterexample to C5 as stated: with observers `0` (write fails)
and `1` (write succeeds), the broadcast delivers to `1` but the failing
observer `0` is still a member of the registry set after the call — it
is not dropped, contrary to the claim that a failing observer is
removed from the registry by the publish. -/
theorem claim5_counterexample :
    (broadcast [{ oid := 0, writeOk := false }, { oid := 1, writeOk := true }]).1 = [1] ∧
    ({ oid := 0, writeOk := false } : Observer) ∈
      (broadcast [{ oid := 0, writeOk := false }, { oid := 1, writeOk := true }]).2 := by
  decide

/-- The shape invariant of a produced Turn: it is nonempty, its `user`
field is the first member's prompt, and every later member is
promptless — so an Exchange with a non-null prompt only ever starts a
Turn, and a promptless Exchange only ever extends one (or heads a
promptless Turn). -/
def TurnOK (t : Turn) : Prop :=
  ∃ e es, t.exs = e :: es ∧ t.user = e.userMessage ∧ ∀ x ∈ es, x.userMessage = none

lemma groupTurnsGo_join (l : List Exchange) :
    (∀ t : Turn, ((groupTurnsGo (some t) l).map Turn.exs).join = t.exs ++ l) ∧
    ((groupTurnsGo none l).map Turn.exs).join = l := by
  induction l with
  | nil => exact ⟨fun t => by simp [groupTurnsGo], by simp [groupTurnsGo]⟩
  | cons ex rest ih =>
    refine ⟨fun t => ?_, ?_⟩ <;>
      rcases hu : ex.userMessage with _ | pu <;>
        simp [groupTurnsGo, hu, ih.1]

lemma groupTurnsGo_length (l : List Exchange) :
    (∀ t : Turn, (groupTurnsGo (some t) l).length ≤ 1 + l.length) ∧
    (groupTurnsGo none l).length ≤ l.length := by
  induction l with
  | nil => exact ⟨fun t => by simp [groupTurnsGo], by simp [groupTurnsGo]⟩
  | cons ex rest ih =>
    constructor
    · intro t
      rcases hu : ex.userMessage with _ | pu
      · have h := ih.1 ⟨t.user, t.exs ++ [ex]⟩
        simp [groupTurnsGo, hu]
        omega
      · have h := ih.1 ⟨some pu, [ex]⟩
        simp [groupTurnsGo, hu]
        omega
    · rcases hu : ex.userMessage with _ | pu
      · have h := ih.1 ⟨none, [ex]⟩
        simp [groupTurnsGo, hu]
        omega
      · have h := ih.1 ⟨some pu, [ex]⟩
        simp [groupTurnsGo, hu]
        omega

lemma groupTurnsGo_ok (l : List Exchange) :
    (∀ t : Turn, TurnOK t → ∀ t' ∈ groupTurnsGo (some t) l, TurnOK t') ∧
    (∀ t' ∈ groupTurnsGo none l, TurnOK t') := by
  induction l with
  | nil =>
    constructor
    · intro t ht t' hmem
      simp only [groupTurnsGo, List.mem_singleton] at hmem
      exact hmem ▸ ht
    · intro t' hmem
      simp [groupTurnsGo] at hmem
  | cons ex rest ih =>
    constructor
    · intro t ht t' hmem
      rcases hu : ex.userMessage with _ | pu
      · simp only [groupTurnsGo, hu] at hmem
        rcases ht with ⟨e, es, hexs, huser, htail⟩
        refine ih.1 ⟨t.user, t.exs ++ [ex]⟩ ⟨e, es ++ [ex], ?_, huser, ?_⟩ t' hmem
        · show t.exs ++ [ex] = e :: (es ++ [ex])
          rw [hexs]; rfl
        · intro x hx
          rcases List.mem_append.mp hx with hx | hx
          · exact htail x hx
          · rw [List.mem_singleton.mp hx]; exact hu
      · simp only [groupTurnsGo, hu] at hmem
        rcases List.mem_append.mp hmem with h1 | h2
        · rw [List.mem_singleton.mp h1]; exact ht
        · exact ih.1 _ ⟨ex, [], rfl, hu.symm, by simp⟩ t' h2
    · intro t' hmem
      rcases hu : ex.userMessage with _ | pu
      · simp only [groupTurnsGo, hu] at hmem
        exact ih.1 _ ⟨ex, [], rfl, hu.symm, by simp⟩ t' hmem
      · simp only [groupTurnsGo, hu, List.nil_append] at hmem
        exact ih.1 _ ⟨ex, [], rfl, hu.symm, by simp⟩ t' hmem

lemma groupTurnsGo_tail_prompted (l : List Exchange) :
    (∀ t : Turn, t.user ≠ none → ∀ t' ∈ groupTurnsGo (some t) l, t'.user ≠ none) ∧
    (∀ t : Turn, ∀ t' ∈ (groupTurnsGo (some t) l).tail, t'.user ≠ none) ∧
    (∀ t' ∈ (groupTurnsGo none l).tail, t'.user ≠ none) := by
  induction l with
  | nil =>
    refine ⟨?_, ?_, ?_⟩
    · intro t ht t' hmem
      simp only [groupTurnsGo, List.mem_singleton] at hmem
      exact hmem ▸ ht
    · intro t t' hmem
      simp [groupTurnsGo] at hmem
    · intro t' hmem
      simp [groupTurnsGo] at hmem
  | cons ex rest ih =>
    obtain ⟨ih1, ih2, ih3⟩ := ih
    refine ⟨?_, ?_, ?_⟩
    · intro t ht t' hmem
      rcases hu : ex.userMessage with _ | pu
      · simp only [groupTurnsGo, hu] at hmem
        exact ih1 ⟨t.user, t.exs ++ [ex]⟩ ht t' hmem
      · simp only [groupTurnsGo, hu, List.singleton_append] at hmem
        rcases List.mem_cons.mp hmem with h1 | h2
        · exact h1 ▸ ht
        · exact ih1 ⟨some pu, [ex]⟩ (by simp) t' h2
    · intro t t' hmem
      rcases hu : ex.userMessage with _ | pu
      · simp only [groupTurnsGo, hu] at hmem
        exact ih2 ⟨t.user, t.exs ++ [ex]⟩ t' hmem
      · simp only [groupTurnsGo, hu, List.singleton_append, List.tail_cons] at hmem
        exact ih1 ⟨some pu, [ex]⟩ (by simp) t' hmem
    · intro t' hmem
      rcases hu : ex.userMessage with _ | pu
      · simp only [groupTurnsGo, hu] at hmem
        exact ih2 ⟨none, [ex]⟩ t' hmem
      · simp only [groupTurnsGo, hu, List.nil_append] at hmem
        exact ih1 ⟨some pu, [ex]⟩ (by simp) t' (List.mem_of_mem_tail hmem)

/-- C2: `groupTurns` partitions the exchange sequence — concatenating
the Turns' member lists in Turn order reproduces the exchange sequence
exactly (every Exchange in exactly one Turn, none dropped or
duplicated, order preserved), and the number of Turns is at most the
number of Exchanges.  Every Turn satisfies `TurnOK`: a prompted
Exchange is always the first member of its Turn (so it always starts a
new Turn) and every non-first member is promptless.  Finally, every
Turn after the first is anchored on a prompted head, so a promptless
Exchange never opens a later Turn: it joins the currently open Turn,
and only the very first Turn (opened when no Turn is open yet) can be
promptless.  Together the four conjuncts force the Turn boundaries to
lie exactly before the prompted Exchanges, which is the claim's
grouping rule. -/
theorem claim2_groupTurns_partition (exchanges : List Exchange) :
    ((groupTurns exchanges).map Turn.exs).join = exchanges ∧
    (groupTurns exchanges).length ≤ exchanges.length ∧
    (∀ t ∈ groupTurns exchanges, TurnOK t) ∧
    (∀ t ∈ (groupTurns exchanges).tail, t.user ≠ none) :=
  ⟨(groupTurnsGo_join exchanges).2, (groupTurnsGo_length exchanges).2,
   (groupTurnsGo_ok exchanges).2, (groupTurnsGo_tail_prompted exchanges).2.2⟩

/-- Concrete prompted exchange for the C2 witness. -/
def w2ex1 : Exchange :=
  { uuid := none, requestId := none, timestamp := none, model := none,
    input := 1, cacheRead := 0, cacheCreated := 0, output := 2, totalContext := 1,
    userMessage := some { uuid := none, timestamp := none, content := "q", isCompactSummary := false },
    response := "r", serviceTier := none }

/-- Concrete promptless exchange for the C2 witness. -/
def w2ex2 : Exchange := { w2ex1 with userMessage := none, input := 3 }

/-- Concrete second prompted exchange for the C2 witness. -/
def w2ex3 : Exchange :=
  { w2ex1 with
    userMessage := some { uuid := none, timestamp := none, content := "q2", isCompactSummary := false },
    output := 5 }

/-- Witness for C2 on a concrete three-exchange list (prompted,
promptless follow-up, prompted), giving two Turns: the promptless
exchange joins the first Turn, and the second Turn — a non-first Turn —
is prompted. -/
theorem claim2_witness :
    ((groupTurns [w2ex1, w2ex2, w2ex3]).map Turn.exs).join = [w2ex1, w2ex2, w2ex3] ∧
    TurnOK { user := w2ex1.userMessage, exs := [w2ex1, w2ex2] } ∧
    ({ user := w2ex3.userMessage, exs := [w2ex3] } : Turn).user ≠ none :=
  ⟨(claim2_groupTurns_partition [w2ex1, w2ex2, w2ex3]).1,
   (claim2_groupTurns_partition [w2ex1, w2ex2, w2ex3]).2.2.1 _ (by decide),
   (claim2_groupTurns_partition [w2ex1, w2ex2, w2ex3]).2.2.2 _ (by decide)⟩

lemma stepRec_surfaced (s : PState) (r : Rec) (pu : Pending)
    (h : (stepRec s r).pendingUser = some pu ∨
         ∃ ex ∈ (stepRec s r).data.exchanges, ex.userMessage = some pu) :
    (s.pendingUser = some pu ∨ ∃ ex ∈ s.data.exchanges, ex.userMessage = some pu) ∨
    userPromptOf r = some pu := by
  unfold stepRec at h
  split at h
  · exact Or.inl h
  · split at h
    · split at h
      · next pu' hpu' =>
        rcases h with h | h
        · exact Or.inr (hpu'.trans (by exact congrArg some (Option.some.inj h)))
        · exact Or.inl (Or.inr h)
      · exact Or.inl h
    · split at h
      · split at h
        · split at h
          · rcases h with h | ⟨ex, hmem, hex⟩
            · exact absurd h (by simp [assistantStep])
            · simp only [assistantStep] at hmem
              rcases List.mem_append.mp hmem with hold | hnew
              · exact Or.inl (Or.inr ⟨ex, hold, hex⟩)
              · rw [List.mem_singleton.mp hnew] at hex
                exact Or.inl (Or.inl hex)
          · exact Or.inl h
        · exact Or.inl h
      · exact Or.inl h

lemma runLines_surfaced (ls : List Line) : ∀ (s : PState) (pu : Pending),
    ((runLines s ls).pendingUser = some pu ∨
      ∃ ex ∈ (runLines s ls).data.exchanges, ex.userMessage = some pu) →
    (s.pendingUser = some pu ∨ ∃ ex ∈ s.data.exchanges, ex.userMessage = some pu) ∨
    ∃ r : Rec, Line.record r ∈ ls ∧ userPromptOf r = some pu := by
  induction ls with
  | nil => intro s pu h; exact Or.inl h
  | cons l rest ih =>
    intro s pu h
    rcases ih (stepLine s l) pu h with h1 | ⟨r, hr, hpr⟩
    · cases l with
      | blank => exact Or.inl h1
      | malformed => exact Or.inl h1
      | record r =>
        rcases stepRec_surfaced s r pu h1 with h2 | h2
        · exact Or.inl h2
        · exact Or.inr ⟨r, List.mem_cons_self _ _, h2⟩
    · exact Or.inr ⟨r, List.mem_cons_of_mem _ hr, hpr⟩

/-- C3: a human-message record whose content items are exclusively
tool results never becomes the pending prompt (`userPromptOf` rejects
it), and consequently — second conjunct — every prompt that surfaces as
some Exchange's `userMessage` originates, via `userPromptOf`, from a
record of the input that is not tool-result-only. -/
theorem claim3_tool_result_never_prompts :
    (∀ r : Rec, toolResultOnly r = true → userPromptOf r = none) ∧
    (∀ (content : List Line) (ex : Exchange) (pu : Pending),
      ex ∈ (parseLines content).exchanges → ex.userMessage = some pu →
      ∃ r : Rec, Line.record r ∈ content ∧ userPromptOf r = some pu ∧
        toolResultOnly r = false) := by
  have h1 : ∀ r : Rec, toolResultOnly r = true → userPromptOf r = none := by
    intro r h
    unfold toolResultOnly at h
    unfold userPromptOf
    cases hm : r.message with
    | none => rfl
    | some m =>
      rw [hm] at h
      have h' : (match m.content with
        | Content.arr items => !items.isEmpty && items.all fun c => c.ctype == "tool_result"
        | _ => false) = true := h
      simp only [hm]
      cases hMeta : r.isMeta
      · simp [hMeta, h']
      · simp [hMeta]
  refine ⟨h1, ?_⟩
  intro content ex pu hmem hum
  have hs := runLines_surfaced (content.filter fun l => l != Line.blank) initState pu
    (Or.inr ⟨ex, hmem, hum⟩)
  rcases hs with h | ⟨r, hr, hpr⟩
  · rcases h with h | ⟨e, he, _⟩
    · exact absurd h (by simp [initState])
    · exact absurd he (by simp [initState, initData])
  · refine ⟨r, List.mem_of_mem_filter hr, hpr, ?_⟩
    by_contra htr
    rw [h1 r (by simpa using htr)] at hpr
    cases hpr

/-- Concrete tool-result-only user record for the C3 witness. -/
def w3tool : Rec :=
  { type := some "user", subtype := none, isMeta := false, isCompactSummary := false,
    compactMetadata := none,
    message := some { role := some "user", content := .arr [{ ctype := "tool_result", text := none }],
                      usage := none, model := none },
    uuid := none, requestId := none, timestamp := none, sessionId := none, slug := none,
    version := none }

/-- Concrete genuine user record for the C3 witness. -/
def w3user : Rec :=
  { w3tool with
    uuid := some "u3",
    message := some { role := some "user", content := .str "hello there", usage := none, model := none } }

/-- Concrete assistant record with usage for the C3 witness. -/
def w3asst : Rec :=
  { w3tool with
    type := some "assistant",
    message := some
      { role := some "assistant", content := .str "resp",
        usage := some
          { input_tokens := some 1, cache_read_input_tokens := none,
            cache_creation_input_tokens := none, output_tokens := some 2,
            service_tier := none },
        model := some "m" } }

/-- Concrete input for the C3 witness. -/
def w3content : List Line := [.record w3tool, .record w3user, .record w3asst]

/-- The prompt surfacing in the C3 witness input. -/
def w3pu : Pending :=
  { uuid := some "u3", timestamp := none, content := "hello there", isCompactSummary := false }

/-- The exchange produced by the C3 witness input. -/
def w3ex : Exchange :=
  { uuid := none, requestId := none, timestamp := none, model := some "m",
    input := 1, cacheRead := 0, cacheCreated := 0, output := 2, totalContext := 1,
    userMessage := some w3pu, response := "resp", serviceTier := none }

/-- Witness for C3: in a log whose first record is tool-result-only,
that record yields no pending prompt, and the prompt that does surface
traces back to a non-tool-result record. -/
theorem claim3_witness :
    userPromptOf w3tool = none ∧
    (∃ r : Rec, Line.record r ∈ w3content ∧ userPromptOf r = some w3pu ∧
      toolResultOnly r = false) := by
  have hexs : (parseLines w3content).exchanges = [w3ex] := by decide
  exact ⟨claim3_tool_result_never_prompts.1 w3tool (by decide),
    claim3_tool_result_never_prompts.2 w3content w3ex w3pu
      (by rw [hexs]; exact List.mem_singleton.mpr rfl) (by decide)⟩

/-- A line that neither is an assistant-usage record nor installs a
pending prompt: blank or malformed lines, and records that are not
assistant-usage and whose user-branch (if taken) skips them. -/
def inertLine : Line → Bool
  | .record r => !isAsstUsage r && (!isUserMsg r || (userPromptOf r).isNone)
  | _ => true

lemma userType_of_isUserMsg (r : Rec) (hu : isUserMsg r = true) :
    r.type = some "user" := by
  unfold isUserMsg at hu
  rw [Bool.and_eq_true] at hu
  exact eq_of_beq hu.1

lemma isAsstUsage_false_of_user (r : Rec) (hu : isUserMsg r = true) :
    isAsstUsage r = false := by
  unfold isAsstUsage
  rw [userType_of_isUserMsg r hu]
  have hne : ((some "user" : Option String) == some "assistant") = false := by decide
  simp [hne]

lemma isCompactBoundary_false_of_user (r : Rec) (hu : isUserMsg r = true) :
    isCompactBoundary r = false := by
  unfold isCompactBoundary
  rw [userType_of_isUserMsg r hu]
  have hne : ((some "user" : Option String) == some "system") = false := by decide
  simp [hne]

lemma stepRec_user_prompt (s : PState) (r : Rec) (pu : Pending)
    (hu : isUserMsg r = true) (hp : userPromptOf r = some pu) :
    stepRec s r = { s with pendingUser := some pu } := by
  unfold stepRec
  rw [isCompactBoundary_false_of_user r hu]
  simp [hu, hp]

lemma stepRec_inert (r : Rec) (hA : isAsstUsage r = false)
    (hU : isUserMsg r = true → userPromptOf r = none) (s : PState) :
    stepRec s r =
      if isCompactBoundary r then { s with data := compactData s.data r } else s := by
  unfold stepRec
  by_cases hcb : isCompactBoundary r = true
  · simp [hcb]
  · simp only [hcb, Bool.false_eq_true, if_false, (Bool.not_eq_true _).mp hcb]
    by_cases hum : isUserMsg r = true
    · simp [hum, hU hum]
    · simp [hum, hA]

lemma inert_step (l : Line) (hin : inertLine l = true) : ∀ s₁ s₂ : PState,
    s₁.data = s₂.data →
    (stepLine s₁ l).data = (stepLine s₂ l).data ∧
    (stepLine s₁ l).pendingUser = s₁.pendingUser ∧
    (stepLine s₂ l).pendingUser = s₂.pendingUser := by
  intro s₁ s₂ hd
  cases l with
  | blank => exact ⟨hd, rfl, rfl⟩
  | malformed => exact ⟨hd, rfl, rfl⟩
  | record r =>
    simp only [inertLine, Bool.and_eq_true, Bool.or_eq_true, Bool.not_eq_true',
      Option.isNone_iff_eq_none] at hin
    obtain ⟨hA, hU⟩ := hin
    have hU' : isUserMsg r = true → userPromptOf r = none := by
      intro h
      rcases hU with hU | hU
      · rw [h] at hU; cases hU
      · exact hU
    show (stepRec s₁ r).data = (stepRec s₂ r).data ∧
      (stepRec s₁ r).pendingUser = s₁.pendingUser ∧
      (stepRec s₂ r).pendingUser = s₂.pendingUser
    rw [stepRec_inert r hA hU' s₁, stepRec_inert r hA hU' s₂]
    by_cases hcb : isCompactBoundary r = true
    · simp only [hcb, if_true]
      refine ⟨by rw [hd], ?_, ?_⟩ <;> first | rfl | trivial
    · simp only [hcb, Bool.false_eq_true, if_false]
      refine ⟨hd, ?_, ?_⟩ <;> first | rfl | trivial

lemma inert_run (mid : List Line) : ∀ s₁ s₂ : PState,
    (∀ l ∈ mid, inertLine l = true) → s₁.data = s₂.data →
    (runLines s₁ mid).data = (runLines s₂ mid).data ∧
    (runLines s₁ mid).pendingUser = s₁.pendingUser ∧
    (runLines s₂ mid).pendingUser = s₂.pendingUser := by
  induction mid with
  | nil => intro s₁ s₂ _ hd; exact ⟨hd, rfl, rfl⟩
  | cons l rest ih =>
    intro s₁ s₂ hin hd
    obtain ⟨hd', hp₁, hp₂⟩ := inert_step l (hin l (List.mem_cons_self _ _)) s₁ s₂ hd
    obtain ⟨hD, hP₁, hP₂⟩ :=
      ih (stepLine s₁ l) (stepLine s₂ l) (fun l hl => hin l (List.mem_cons_of_mem _ hl)) hd'
    exact ⟨hD, hP₁.trans hp₁, hP₂.trans hp₂⟩

/-- C6: when two qualifying human-message records occur with only
inert lines (no assistant-usage record, no other prompt-installing
record) between them, the later one overwrites the earlier as the
pending prompt: parsing the rest of the log from the state after both
records is identical to parsing it as if the earlier record had never
occurred, so the earlier prompt is silently dropped and never surfaces
as any Exchange's prompt; and (second conjunct) after the later record
the single pending-prompt slot holds exactly that record's prompt, so
at most one prompt precedes the next assistant output. -/
theorem claim6_later_prompt_overwrites (s : PState) (r1 r2 : Rec)
    (mid rest : List Line) (pu1 pu2 : Pending)
    (h1u : isUserMsg r1 = true) (h1p : userPromptOf r1 = some pu1)
    (h2u : isUserMsg r2 = true) (h2p : userPromptOf r2 = some pu2)
    (hmid : ∀ l ∈ mid, inertLine l = true) :
    runLines s (Line.record r1 :: (mid ++ Line.record r2 :: rest)) =
      runLines s (mid ++ Line.record r2 :: rest) ∧
    (∀ s' : PState, (stepRec s' r2).pendingUser = some pu2) := by
  constructor
  · show runLines (stepLine s (Line.record r1)) (mid ++ Line.record r2 :: rest) = _
    have hsplit : ∀ x : PState, runLines x (mid ++ Line.record r2 :: rest) =
        runLines (stepRec (runLines x mid) r2) rest := by
      intro x
      unfold runLines
      rw [List.foldl_append]
      rfl
    rw [hsplit, hsplit]
    have hr1 : stepLine s (Line.record r1) = { s with pendingUser := some pu1 } :=
      stepRec_user_prompt s r1 pu1 h1u h1p
    rw [hr1]
    obtain ⟨hD, _, _⟩ := inert_run mid { s with pendingUser := some pu1 } s hmid rfl
    rw [stepRec_user_prompt _ r2 pu2 h2u h2p, stepRec_user_prompt _ r2 pu2 h2u h2p]
    rw [show (runLines { s with pendingUser := some pu1 } mid).data = (runLines s mid).data
      from hD]
  · intro s'
    rw [stepRec_user_prompt s' r2 pu2 h2u h2p]

/-- First qualifying user record for the C6 witness. -/
def w6a : Rec :=
  { w3tool with
    uuid := some "a",
    message := some { role := some "user", content := .str "first prompt", usage := none, model := none } }

/-- Second qualifying user record for the C6 witness. -/
def w6b : Rec :=
  { w3tool with
    uuid := some "b",
    message := some { role := some "user", content := .str "second prompt", usage := none, model := none } }

/-- Compact-boundary record for the C6 witness (inert for prompts). -/
def w6compact : Rec :=
  { w3tool with type := some "system", subtype := some "compact_boundary", message := none }

/-- The pending prompt produced by `w6b`. -/
def w6pu2 : Pending :=
  { uuid := some "b", timestamp := none, content := "second prompt", isCompactSummary := false }

/-- Witness for C6: two prompts separated by a malformed line and a
compact-boundary record, followed by an assistant exchange. -/
theorem claim6_witness :
    runLines initState
        (Line.record w6a :: ([Line.malformed, Line.record w6compact] ++ Line.record w6b :: [Line.record w3asst])) =
      runLines initState
        ([Line.malformed, Line.record w6compact] ++ Line.record w6b :: [Line.record w3asst]) ∧
    (∀ s' : PState, (stepRec s' w6b).pendingUser = some w6pu2) := by
  have hpu1 : userPromptOf w6a =
      some { uuid := some "a", timestamp := none, content := "first prompt", isCompactSummary := false } := by
    decide
  exact claim6_later_prompt_overwrites initState w6a w6b
    [Line.malformed, Line.record w6compact] [Line.record w3asst] _ w6pu2
    (by decide) hpu1 (by decide) (by decide) (by decide)

/-- First-of-two option values. -/
def orFirst (a b : Option String) : Option String :=
  match a with
  | some v => some v
  | none => b

/-- First-write-wins capture: keep `cur` when it is already truthy,
otherwise take the supplied value when there is one. -/
def fwCapture (cur sup : Option String) : Option String :=
  if strTruthy cur then cur else orFirst sup cur

/-- The session id supplied to the summary by one line: only an
assistant-usage record with a truthy `sessionId` supplies one. -/
def lineSessionId : Line → Option String
  | .record r => if isAsstUsage r && strTruthy r.sessionId then r.sessionId else none
  | _ => none

/-- The model identifier supplied to the summary by one line (read
from `message.model` of an assistant-usage record). -/
def lineModel : Line → Option String
  | .record r =>
    match r.message with
    | some m => if isAsstUsage r && strTruthy m.model then m.model else none
    | none => none
  | _ => none

/-- The slug supplied to the summary by one line. -/
def lineSlug : Line → Option String
  | .record r => if isAsstUsage r && strTruthy r.slug then r.slug else none
  | _ => none

/-- The schema version supplied to the summary by one line. -/
def lineVersion : Line → Option String
  | .record r => if isAsstUsage r && strTruthy r.version then r.version else none
  | _ => none

lemma fwCapture_none (cur : Option String) : fwCapture cur none = cur := by
  unfold fwCapture orFirst
  split <;> rfl

lemma fwCapture_init (sup : Option String) : fwCapture none sup = sup := by
  cases sup <;> rfl

lemma fwCapture_comp (cur a b : Option String) (ha : a = none ∨ strTruthy a = true) :
    fwCapture (fwCapture cur a) b = fwCapture cur (orFirst a b) := by
  cases hc : strTruthy cur
  · cases a with
    | none => simp [fwCapture, orFirst, hc]
    | some v =>
      have ht : strTruthy (some v) = true := by
        rcases ha with h | h
        · cases h
        · exact h
      simp [fwCapture, orFirst, hc, ht]
  · simp [fwCapture, hc]

lemma filterMap_cons_head (f : Line → Option String) (l : Line) (ls : List Line) :
    ((l :: ls).filterMap f).head? = orFirst (f l) ((ls.filterMap f).head?) := by
  cases hf : f l <;> simp [List.filterMap_cons, hf, orFirst]

lemma isAsstUsage_false_of_compact (r : Rec) (h : isCompactBoundary r = true) :
    isAsstUsage r = false := by
  unfold isCompactBoundary at h
  rw [Bool.and_eq_true] at h
  have htype : r.type = some "system" := eq_of_beq h.1
  unfold isAsstUsage
  rw [htype]
  have hne : ((some "system" : Option String) == some "assistant") = false := by decide
  simp [hne]

lemma lineSessionId_eq_none (r : Rec) (hA : isAsstUsage r = false) :
    lineSessionId (Line.record r) = none := by
  simp [lineSessionId, hA]

lemma lineModel_eq_none (r : Rec) (hA : isAsstUsage r = false) :
    lineModel (Line.record r) = none := by
  cases hm : r.message <;> simp [lineModel, hm, hA]

lemma lineSlug_eq_none (r : Rec) (hA : isAsstUsage r = false) :
    lineSlug (Line.record r) = none := by
  simp [lineSlug, hA]

lemma lineVersion_eq_none (r : Rec) (hA : isAsstUsage r = false) :
    lineVersion (Line.record r) = none := by
  simp [lineVersion, hA]

lemma lineSessionId_ok (l : Line) :
    lineSessionId l = none ∨ strTruthy (lineSessionId l) = true := by
  cases l with
  | blank => exact Or.inl rfl
  | malformed => exact Or.inl rfl
  | record r =>
    have hred : lineSessionId (Line.record r) =
        if isAsstUsage r && strTruthy r.sessionId then r.sessionId else none := rfl
    rw [hred]
    by_cases hc : (isAsstUsage r && strTruthy r.sessionId) = true
    · rw [if_pos hc]
      rw [Bool.and_eq_true] at hc
      exact Or.inr hc.2
    · rw [if_neg hc]
      exact Or.inl rfl

lemma lineModel_ok (l : Line) :
    lineModel l = none ∨ strTruthy (lineModel l) = true := by
  cases l with
  | blank => exact Or.inl rfl
  | malformed => exact Or.inl rfl
  | record r =>
    cases hm : r.message with
    | none =>
      left
      show (match r.message with
        | some m => if isAsstUsage r && strTruthy m.model then m.model else none
        | none => none) = none
      rw [hm]
    | some m =>
      have hred : lineModel (Line.record r) =
          if isAsstUsage r && strTruthy m.model then m.model else none := by
        show (match r.message with
          | some m => if isAsstUsage r && strTruthy m.model then m.model else none
          | none => none) = _
        rw [hm]
      rw [hred]
      by_cases hc : (isAsstUsage r && strTruthy m.model) = true
      · rw [if_pos hc]
        rw [Bool.and_eq_true] at hc
        exact Or.inr hc.2
      · rw [if_neg hc]
        exact Or.inl rfl

lemma lineSlug_ok (l : Line) :
    lineSlug l = none ∨ strTruthy (lineSlug l) = true := by
  cases l with
  | blank => exact Or.inl rfl
  | malformed => exact Or.inl rfl
  | record r =>
    have hred : lineSlug (Line.record r) =
        if isAsstUsage r && strTruthy r.slug then r.slug else none := rfl
    rw [hred]
    by_cases hc : (isAsstUsage r && strTruthy r.slug) = true
    · rw [if_pos hc]
      rw [Bool.and_eq_true] at hc
      exact Or.inr hc.2
    · rw [if_neg hc]
      exact Or.inl rfl

lemma lineVersion_ok (l : Line) :
    lineVersion l = none ∨ strTruthy (lineVersion l) = true := by
  cases l with
  | blank => exact Or.inl rfl
  | malformed => exact Or.inl rfl
  | record r =>
    have hred : lineVersion (Line.record r) =
        if isAsstUsage r && strTruthy r.version then r.version else none := rfl
    rw [hred]
    by_cases hc : (isAsstUsage r && strTruthy r.version) = true
    · rw [if_pos hc]
      rw [Bool.and_eq_true] at hc
      exact Or.inr hc.2
    · rw [if_neg hc]
      exact Or.inl rfl

lemma capture_eq (cur sup : Option String) :
    (if !strTruthy cur && strTruthy sup then sup else cur) =
      fwCapture cur (if strTruthy sup then sup else none) := by
  cases hc : strTruthy cur
  · cases hs : strTruthy sup
    · simp [fwCapture, orFirst, hc, hs]
    · cases sup with
      | none => simp [strTruthy] at hs
      | some v => simp [fwCapture, orFirst, hc, hs]
  · simp [fwCapture, hc]

lemma stepRec_idFields (s : PState) (r : Rec) :
    (stepRec s r).data.sessionId = fwCapture s.data.sessionId (lineSessionId (Line.record r)) ∧
    (stepRec s r).data.model = fwCapture s.data.model (lineModel (Line.record r)) ∧
    (stepRec s r).data.slug = fwCapture s.data.slug (lineSlug (Line.record r)) ∧
    (stepRec s r).data.version = fwCapture s.data.version (lineVersion (Line.record r)) := by
  unfold stepRec
  by_cases hcb : isCompactBoundary r = true
  · simp only [hcb, if_true]
    have hA := isAsstUsage_false_of_compact r hcb
    exact ⟨by rw [lineSessionId_eq_none r hA, fwCapture_none]; rfl,
           by rw [lineModel_eq_none r hA, fwCapture_none]; rfl,
           by rw [lineSlug_eq_none r hA, fwCapture_none]; rfl,
           by rw [lineVersion_eq_none r hA, fwCapture_none]; rfl⟩
  · rw [if_neg hcb]
    by_cases hum : isUserMsg r = true
    · rw [if_pos hum]
      have hA := isAsstUsage_false_of_user r hum
      cases hp : userPromptOf r with
      | some pu =>
        simp only [hp]
        exact ⟨by rw [lineSessionId_eq_none r hA, fwCapture_none],
               by rw [lineModel_eq_none r hA, fwCapture_none],
               by rw [lineSlug_eq_none r hA, fwCapture_none],
               by rw [lineVersion_eq_none r hA, fwCapture_none]⟩
      | none =>
        simp only [hp]
        exact ⟨by rw [lineSessionId_eq_none r hA, fwCapture_none],
               by rw [lineModel_eq_none r hA, fwCapture_none],
               by rw [lineSlug_eq_none r hA, fwCapture_none],
               by rw [lineVersion_eq_none r hA, fwCapture_none]⟩
    · rw [if_neg hum]
      by_cases hA : isAsstUsage r = true
      · rw [if_pos hA]
        have hA2 := hA
        unfold isAsstUsage at hA2
        rw [Bool.and_eq_true] at hA2
        have hA3 : (match r.message with
            | some m => m.usage.isSome
            | none => false) = true := hA2.2
        cases hm : r.message with
        | none =>
          exfalso
          rw [hm] at hA3
          exact Bool.false_ne_true hA3
        | some m =>
          rw [hm] at hA3
          have hA4 : m.usage.isSome = true := hA3
          cases hu : m.usage with
          | none => rw [hu] at hA4; simp at hA4
          | some u =>
            simp only [hm, hu]
            refine ⟨?_, ?_, ?_, ?_⟩
            · show (if !strTruthy s.data.sessionId && strTruthy r.sessionId
                    then r.sessionId else s.data.sessionId) = _
              rw [capture_eq]
              simp [lineSessionId, hA]
            · show (if !strTruthy s.data.model && strTruthy m.model
                    then m.model else s.data.model) = _
              rw [capture_eq]
              simp [lineModel, hm, hA]
            · show (if !strTruthy s.data.slug && strTruthy r.slug
                    then r.slug else s.data.slug) = _
              rw [capture_eq]
              simp [lineSlug, hA]
            · show (if !strTruthy s.data.version && strTruthy r.version
                    then r.version else s.data.version) = _
              rw [capture_eq]
              simp [lineVersion, hA]
      · rw [if_neg hA]
        have hA' : isAsstUsage r = false := by
          cases h : isAsstUsage r
          · rfl
          · exact absurd h hA
        exact ⟨by rw [lineSessionId_eq_none r hA', fwCapture_none],
               by rw [lineModel_eq_none r hA', fwCapture_none],
               by rw [lineSlug_eq_none r hA', fwCapture_none],
               by rw [lineVersion_eq_none r hA', fwCapture_none]⟩

lemma stepLine_idFields (s : PState) (l : Line) :
    (stepLine s l).data.sessionId = fwCapture s.data.sessionId (lineSessionId l) ∧
    (stepLine s l).data.model = fwCapture s.data.model (lineModel l) ∧
    (stepLine s l).data.slug = fwCapture s.data.slug (lineSlug l) ∧
    (stepLine s l).data.version = fwCapture s.data.version (lineVersion l) := by
  cases l with
  | blank =>
    exact ⟨(fwCapture_none _).symm, (fwCapture_none _).symm,
           (fwCapture_none _).symm, (fwCapture_none _).symm⟩
  | malformed =>
    exact ⟨(fwCapture_none _).symm, (fwCapture_none _).symm,
           (fwCapture_none _).symm, (fwCapture_none _).symm⟩
  | record r => exact stepRec_idFields s r

lemma runLines_idFields (ls : List Line) : ∀ s : PState,
    (runLines s ls).data.sessionId =
      fwCapture s.data.sessionId ((ls.filterMap lineSessionId).head?) ∧
    (runLines s ls).data.model =
      fwCapture s.data.model ((ls.filterMap lineModel).head?) ∧
    (runLines s ls).data.slug =
      fwCapture s.data.slug ((ls.filterMap lineSlug).head?) ∧
    (runLines s ls).data.version =
      fwCapture s.data.version ((ls.filterMap lineVersion).head?) := by
  induction ls with
  | nil =>
    intro s
    exact ⟨(fwCapture_none _).symm, (fwCapture_none _).symm,
           (fwCapture_none _).symm, (fwCapture_none _).symm⟩
  | cons l rest ih =>
    intro s
    obtain ⟨h1, h2, h3, h4⟩ := ih (stepLine s l)
    obtain ⟨g1, g2, g3, g4⟩ := stepLine_idFields s l
    refine ⟨?_, ?_, ?_, ?_⟩
    · show (runLines (stepLine s l) rest).data.sessionId = _
      rw [h1, g1, fwCapture_comp _ _ _ (lineSessionId_ok l), filterMap_cons_head]
    · show (runLines (stepLine s l) rest).data.model = _
      rw [h2, g2, fwCapture_comp _ _ _ (lineModel_ok l), filterMap_cons_head]
    · show (runLines (stepLine s l) rest).data.slug = _
      rw [h3, g3, fwCapture_comp _ _ _ (lineSlug_ok l), filterMap_cons_head]
    · show (runLines (stepLine s l) rest).data.version = _
      rw [h4, g4, fwCapture_comp _ _ _ (lineVersion_ok l), filterMap_cons_head]

lemma filterMap_filter_blank (f : Line → Option String) (hf : f Line.blank = none)
    (content : List Line) :
    (content.filter (fun l => l != Line.blank)).filterMap f = content.filterMap f := by
  induction content with
  | nil => rfl
  | cons l rest ih =>
    cases l with
    | blank =>
      simpa [List.filter_cons, List.filterMap_cons, hf] using ih
    | malformed =>
      simp [List.filter_cons, List.filterMap_cons, ih,
        show (Line.malformed != Line.blank) = true from rfl]
    | record r =>
      simp [List.filter_cons, List.filterMap_cons, ih,
        show (Line.record r != Line.blank) = true from rfl]

/-- C8 (amended): the session-level session id, model identifier, slug
and schema version of the summary each equal the value supplied by the
FIRST assistant-usage record (in document order) that supplies them —
first-write-wins, a later record supplying a different value never
overwrites them.  (The unamended claim — first *record of any kind*
that supplies them — is refuted by `claim8_counterexample`: only the
assistant branch captures these fields.) -/
theorem claim8_first_write_wins (content : List Line) :
    (parseLines content).sessionId = (content.filterMap lineSessionId).head? ∧
    (parseLines content).model = (content.filterMap lineModel).head? ∧
    (parseLines content).slug = (content.filterMap lineSlug).head? ∧
    (parseLines content).version = (content.filterMap lineVersion).head? := by
  obtain ⟨h1, h2, h3, h4⟩ :=
    runLines_idFields (content.filter fun l => l != Line.blank) initState
  refine ⟨?_, ?_, ?_, ?_⟩
  · show (runLines initState (content.filter fun l => l != Line.blank)).data.sessionId = _
    rw [h1, show initState.data.sessionId = none from rfl, fwCapture_init,
      filterMap_filter_blank lineSessionId rfl content]
  · show (runLines initState (content.filter fun l => l != Line.blank)).data.model = _
    rw [h2, show initState.data.model = none from rfl, fwCapture_init,
      filterMap_filter_blank lineModel rfl content]
  · show (runLines initState (content.filter fun l => l != Line.blank)).data.slug = _
    rw [h3, show initState.data.slug = none from rfl, fwCapture_init,
      filterMap_filter_blank lineSlug rfl content]
  · show (runLines initState (content.filter fun l => l != Line.blank)).data.version = _
    rw [h4, show initState.data.version = none from rfl, fwCapture_init,
      filterMap_filter_blank lineVersion rfl content]

/-- A record of any kind that carries a (truthy) session id — the
reading of "supplies a session id" in the unamended C8. -/
def suppliesSessionId : Line → Option String
  | .record r => if strTruthy r.sessionId then r.sessionId else none
  | _ => none

/-- Human-message record carrying session id `"A"` (C8 counterexample
input). -/
def c8user : Rec :=
  { w3tool with
    sessionId := some "A",
    message := some { role := some "user", content := .str "hi", usage := none, model := none } }

/-- Assistant-usage record carrying session id `"B"` (C8 counterexample
input). -/
def c8asst : Rec := { w3asst with sessionId := some "B" }

/-- The C8 counterexample log. -/
def c8lines : List Line := [.record c8user, .record c8asst]

/-- Counterexample to C8 as stated: the first record in document order
that supplies a session id is the human-message record carrying `"A"`,
yet the summary's session id is `"B"`, taken from the later assistant
record — the parser captures these fields only from assistant-usage
records, not from the first record of any kind that supplies them. -/
theorem claim8_counterexample :
    (c8lines.filterMap suppliesSessionId).head? = some "A" ∧
    (parseLines c8lines).sessionId = some "B" ∧
    some "A" ≠ some "B" := by
  refine ⟨by decide, by decide, by decide⟩

end Dashboard
